import Mathlib

/-!
Verification of the LangGraph orchestration engine of this repository.

The definitions below are a shallow embedding of `app/langgraph_agent.py`
and `app/mcp/mcp_adapter_client.py`:

* Python JSON-shaped values are the inductive `JValue` (floats are not
  needed by any routine under study, so numbers are integers).
* Python dictionaries are association lists with the helpers `aget`
  (lookup, mirroring `dict.get`) and `aset` (assignment, which replaces
  the value in place for an existing key and appends a new key at the
  end, exactly like insertion order in a Python dict).
* External collaborators, namely the language model, the fuzzy scorer
  `rapidfuzz.fuzz.partial_ratio`, `json.loads`, and the MCP tool calls,
  are parameters of the embedded functions; theorems quantify over them.
-/

set_option maxHeartbeats 1000000

/-- JSON-shaped Python values as manipulated by the agent. -/
inductive JValue where
  | null
  | bool (b : Bool)
  | num (n : Int)
  | str (s : String)
  | list (xs : List JValue)
  | dict (kvs : List (String × JValue))

/-- Python `dict.get`: first binding of the key, if any. -/
def aget {α : Type} : List (String × α) → String → Option α
  | [], _ => none
  | (k, v) :: m, key => if key = k then some v else aget m key

/-- Python `d[k] = v`: replace in place when the key exists, append otherwise. -/
def aset {α : Type} : List (String × α) → String → α → List (String × α)
  | [], key, v => [(key, v)]
  | (k, w) :: m, key, v => if key = k then (k, v) :: m else (k, w) :: aset m key v

theorem aget_aset {α : Type} (m : List (String × α)) (k k' : String) (v : α) :
    aget (aset m k v) k' = if k' = k then some v else aget m k' := by
  induction m with
  | nil =>
    by_cases h : k' = k <;> simp [aset, aget, h]
  | cons kv m ih =>
    obtain ⟨k₀, w⟩ := kv
    by_cases h0 : k = k₀
    · subst h0
      by_cases h : k' = k <;> simp [aset, aget, h]
    · by_cases h : k' = k₀
      · subst h
        simp [aset, aget, h0, Ne.symm h0]
      · simp [aset, aget, h0, h, ih]

theorem aget_nil {α : Type} (k : String) : aget ([] : List (String × α)) k = none := rfl

/-! ## String primitives

Python string methods are modelled on character lists so that every
definition evaluates by kernel reduction on concrete inputs. -/

/-- Prefix test on character lists. -/
def charsPrefix : List Char → List Char → Bool
  | [], _ => true
  | _ :: _, [] => false
  | a :: as, b :: bs => a == b && charsPrefix as bs

/-- Substring containment of `needle` in `hay`, the Python `in` operator. -/
def charsContains : List Char → List Char → Bool
  | needle, [] => needle.isEmpty
  | needle, c :: cs => charsPrefix needle (c :: cs) || charsContains needle cs

/-- Python `needle in hay` on strings. -/
def strContains (hay needle : String) : Bool :=
  charsContains needle.data hay.data

/-- Python `str.strip()`: drop whitespace at both ends. -/
def pyStrip (s : String) : String :=
  ⟨((s.data.dropWhile Char.isWhitespace).reverse.dropWhile Char.isWhitespace).reverse⟩

/-- Python `str.upper()` (ASCII case mapping). -/
def pyUpper (s : String) : String := ⟨s.data.map Char.toUpper⟩

/-- Python `str.lower()` (ASCII case mapping). -/
def pyLower (s : String) : String := ⟨s.data.map Char.toLower⟩

/-- Python `str.startswith(pre)`. -/
def pyStartsWith (s pre : String) : Bool := charsPrefix pre.data s.data

/-- Python slicing `s[:n]`. -/
def pyTake (s : String) (n : Nat) : String := ⟨s.data.take n⟩

/-- Replace every occurrence of the non-empty pattern `o :: os` by `rep`. -/
def replaceAux (o : Char) (os rep : List Char) : List Char → List Char
  | [] => []
  | c :: cs =>
    if charsPrefix (o :: os) (c :: cs) then rep ++ replaceAux o os rep (cs.drop os.length)
    else c :: replaceAux o os rep cs
termination_by l => l.length
decreasing_by
  · simp <;> omega
  · simp <;> omega

/-- Python `str.replace(old, new)`; the empty pattern, which no call site
uses, is returned unchanged. -/
def pyReplace (s old new : String) : String :=
  match old.data with
  | [] => s
  | o :: os => ⟨replaceAux o os new.data s.data⟩

/-- Values that the shallow per-key scan of `_is_meaningful_result` treats as
empty: `None`, the empty string, the empty list and the empty dict
(`value is not None and value != "" and value != [] and value != \x7b\x7d`). -/
def isTrivialValue : JValue → Bool
  | JValue.null => true
  | JValue.str s => s == ""
  | JValue.list xs => xs.isEmpty
  | JValue.dict kvs => kvs.isEmpty
  | _ => false

/-- The `hits` pagination-field check of `_is_meaningful_result`:
the key is present, holds a list, and that list is empty. -/
def hitsFieldEmpty (kvs : List (String × JValue)) : Bool :=
  match aget kvs "hits" with
  | some (JValue.list xs) => xs.isEmpty
  | _ => false

/-- The `results` pagination-field check of `_is_meaningful_result`. -/
def resultsFieldEmpty (kvs : List (String × JValue)) : Bool :=
  match aget kvs "results" with
  | some (JValue.list xs) => xs.isEmpty
  | _ => false

/-- The nested `data` / `search` / `hits` check of `_is_meaningful_result`. -/
def nestedSearchHitsEmpty (kvs : List (String × JValue)) : Bool :=
  match aget kvs "data" with
  | some (JValue.dict d) =>
    match aget d "search" with
    | some (JValue.dict s) =>
      match aget s "hits" with
      | some (JValue.list xs) => xs.isEmpty
      | _ => false
    | _ => false
  | _ => false

mutual
/-- `_is_meaningful_result` from `langgraph_agent.py`.  `parse` stands for
`json.loads` (returning `none` on a parse error); `pfuel` bounds the
string-reparse recursion, which terminates in Python because parsing a
JSON-encoded string strictly shrinks it.  Structure, in source order:
`None` is empty; a string is empty when blank, otherwise it is re-parsed
when it is valid JSON; a dict is empty when it has no keys, when a
recognized pagination field (`hits`, nested `data.search.hits`, `results`)
is an empty list, or when every value is shallowly trivial; a list is
empty when it has no element or only non-meaningful elements; every other
value (numbers, booleans) is meaningful. -/
def isMeaningfulResult (parse : String → Option JValue) : Nat → JValue → Bool
  | _, JValue.null => false
  | pfuel, JValue.str s =>
    if pyStrip s = "" then false
    else
      match pfuel, parse s with
      | Nat.succ f, some v => isMeaningfulResult parse f v
      | _, _ => true
  | _, JValue.num _ => true
  | _, JValue.bool _ => true
  | pfuel, JValue.list xs =>
    if xs.isEmpty then false
    else isMeaningfulAny parse pfuel xs
  | _, JValue.dict kvs =>
    if kvs.isEmpty then false
    else if hitsFieldEmpty kvs then false
    else if nestedSearchHitsEmpty kvs then false
    else if resultsFieldEmpty kvs then false
    else kvs.any fun kv => !(isTrivialValue kv.2)
termination_by pfuel v => (pfuel, sizeOf v)
decreasing_by
  · exact Prod.Lex.left _ _ (Nat.lt_succ_self _)
  · exact Prod.Lex.right _ (by simp <;> omega)

/-- `any(self._is_meaningful_result(item) for item in result)`. -/
def isMeaningfulAny (parse : String → Option JValue) : Nat → List JValue → Bool
  | _, [] => false
  | pfuel, x :: xs => isMeaningfulResult parse pfuel x || isMeaningfulAny parse pfuel xs
termination_by pfuel xs => (pfuel, sizeOf xs)
decreasing_by
  · exact Prod.Lex.right _ (by simp <;> omega)
  · exact Prod.Lex.right _ (by simp <;> omega)
end

/-! ## Configuration constants of `LangGraphSearchAgent` -/

def MAX_STAGE_AGENT_STEPS : Nat := 4
def MAX_WORKFLOW_ITERATIONS : Nat := 8
def MAX_STAGE_AGENT_TOOLS : Nat := 3
def FALLBACK_TOOL_LIMIT : Nat := 1

/-! ## Question classifier (`_classify_node`, `_detect_professional_keywords`) -/

/-- `LangGraphSearchAgent.PROFESSIONAL_KEYWORDS`, verbatim. -/
def PROFESSIONAL_KEYWORDS : List String :=
  ["약", "단백질", "임상", "유전자", "화합물", "구조", "신약", "바이오", "의약", "임상시험",
   "drug", "protein", "compound", "gene", "clinical", "trial", "structure", "biotech",
   "pharmacology", "FDA", "ChEMBL", "PubChem", "KEGG", "Reactome", "pharma", "biomedical"]

/-- `_detect_professional_keywords`: some keyword is literally contained,
case-insensitively, in the question. -/
def detectProfessionalKeywords (question : String) : Bool :=
  PROFESSIONAL_KEYWORDS.any fun keyword => strContains (pyLower question) (pyLower keyword)

/-- The response cleanup performed by `_classify_node` on the LLM verdict:
`result.strip().replace("\n", "").replace(":", "").replace("답변", "").strip()`. -/
def cleanClassifyResult (r : String) : String :=
  pyStrip (pyReplace (pyReplace (pyReplace (pyStrip r) "\n" "") ":" "") "답변" "")

/-- Python `max` over a non-empty list of scores. -/
def listMaxQ : List ℚ → ℚ
  | [] => 0
  | x :: xs => xs.foldl max x

/-- `max(fuzz.partial_ratio(k, question) for k in self.PROFESSIONAL_KEYWORDS)`,
with the fuzzy scorer abstracted as `fz`. -/
def maxKeywordScore (fz : String → String → ℚ) (question : String) : ℚ :=
  listMaxQ (PROFESSIONAL_KEYWORDS.map fun k => fz k question)

/-- The boolean decision of `_classify_node`: the LLM verdict
(that starts with the word for professional) forced to `true` whenever the
best fuzzy score is at least 80 or a professional keyword is contained. -/
def classifyIsMcp (fz : String → String → ℚ) (llmAnswer question : String) : Bool :=
  let result := cleanClassifyResult llmAnswer
  let base := pyStartsWith result "전문"
  if 80 ≤ maxKeywordScore fz question ∨ detectProfessionalKeywords question then true
  else base

/-! ## MCP router (`_classify_mcp_node`, `_next_unvisited_agent`) -/

/-- `MCP_AGENT_TO_STAGE`, the agent-code to stage-key mapping. -/
def mcpAgentToStage : String → Option String
  | "TV" => some "target_agent"
  | "CD" => some "chem_agent"
  | "SA" => some "structure_agent"
  | "PI" => some "pathway_agent"
  | _ => none

/-- `self._agent_priority`, the keys of `MCP_AGENT_TO_STAGE` in insertion order. -/
def agentPriority : List String := ["TV", "CD", "SA", "PI"]

/-- `MCP_AGENT_CHOICES = (*MCP_AGENT_TO_STAGE.keys(), "AG")`. -/
def MCP_AGENT_CHOICES : List String := ["TV", "CD", "SA", "PI", "AG"]

/-- `stage_visits.get(stage_key, 0)`. -/
def vget (visits : List (String × Nat)) (k : String) : Nat :=
  (aget visits k).getD 0

/-- `_next_unvisited_agent`: first agent code in priority order whose mapped
stage has visit count 0. -/
def nextUnvisitedAgent (visits : List (String × Nat)) : Option String :=
  agentPriority.find? fun agentCode =>
    match mcpAgentToStage agentCode with
    | some stageKey => vget visits stageKey == 0
    | none => false

/-- The routing decision of `_classify_mcp_node` as a function of the visit
counts, the step counter, and the parsed LLM response.  `llm = none` models a
JSON parse failure, `llm = some s` a parsed payload whose `next` field is `s`
(the empty string when the field is absent).  Following the source: escalate
to `AG` when the iteration budget is reached or every mapped stage was
visited; otherwise take the LLM choice, fall back to the first unvisited
agent when parsing failed or the choice is not a valid agent code, and
override a choice whose stage was already visited with the first unvisited
agent. -/
def classifyMcpChoice (visits : List (String × Nat)) (stepCount : Nat)
    (llm : Option String) : String :=
  let pending := nextUnvisitedAgent visits
  if MAX_WORKFLOW_ITERATIONS ≤ stepCount ∨ (pending = none ∧ visits ≠ []) then "AG"
  else
    let c0 :=
      match llm with
      | some s => pyUpper (pyStrip s)
      | none => pending.getD "TV"
    let c1 := if MCP_AGENT_CHOICES.contains c0 then c0 else pending.getD "TV"
    match mcpAgentToStage c1, pending with
    | some stageKey, some p =>
      if 0 < vget visits stageKey ∧ p ≠ c1 then p else c1
    | _, _ => c1

/-! ## Tools, serialization and formatting -/

/-- A LangChain `BaseTool` as seen by the agent: name, description and the
argument-schema field names (`_extract_tool_fields`). -/
structure BTool where
  name : String
  description : String
  fields : List String

/-- `ResolvedMCPTool` from `mcp_adapter_client.py`: the originating server
together with the converted tool. -/
structure ResolvedMCPTool where
  serverName : String
  tool : BTool

/-- The `label` property: `f"{self.server_name}:{self.tool.name}"`. -/
def ResolvedMCPTool.label (r : ResolvedMCPTool) : String :=
  r.serverName ++ ":" ++ r.tool.name

/-- The dict comprehension building `tool_map` keyed by tool name (a later
tool with the same name overrides an earlier one, as in a Python dict). -/
def buildToolMap (tools : List ResolvedMCPTool) : List (String × ResolvedMCPTool) :=
  tools.foldl (fun m r => aset m r.tool.name r) []

/-- Outcome of one external tool invocation: a value, or a raised exception
with its message. -/
inductive ToolOutcome where
  | ok (v : JValue)
  | err (msg : String)

/-- The per-step decision extracted from the LLM response in
`_run_stage_agent`: a function call, or any non-call action, which the code
treats as finishing with the (possibly empty) summary text. -/
inductive AgentDecision where
  | callTool (name : String) (args : JValue)
  | finish (summary : String)

/-- One scratchpad entry of `_run_stage_agent`. -/
inductive ScratchEntry where
  | toolRun (tool : String) (input : JValue) (output : String)
  | err (msg : String)

/-- The mutable locals of the `_run_stage_agent` loop. -/
structure AgentLoop where
  scratch : List ScratchEntry
  results : List (String × JValue)
  usedTools : List String
  summary : String

mutual
/-- A JSON rendering of a value, modelling `json.dumps`; only used to build
human-readable note strings, which no control decision inspects. -/
def jsonDump : JValue → String
  | JValue.null => "null"
  | JValue.bool true => "true"
  | JValue.bool false => "false"
  | JValue.num n => toString n
  | JValue.str s => "\"" ++ s ++ "\""
  | JValue.list xs => "[" ++ jsonDumpList xs ++ "]"
  | JValue.dict kvs => "\x7b" ++ jsonDumpDict kvs ++ "\x7d"

/-- Comma-joined rendering of list elements. -/
def jsonDumpList : List JValue → String
  | [] => ""
  | [x] => jsonDump x
  | x :: y :: xs => jsonDump x ++ ", " ++ jsonDumpList (y :: xs)

/-- Comma-joined rendering of dict entries. -/
def jsonDumpDict : List (String × JValue) → String
  | [] => ""
  | [(k, v)] => "\"" ++ k ++ "\": " ++ jsonDump v
  | (k, v) :: kv :: kvs => "\"" ++ k ++ "\": " ++ jsonDump v ++ ", " ++ jsonDumpDict (kv :: kvs)
end

/-- Python `str` on a scalar value. -/
def pyStr : JValue → String
  | JValue.str s => s
  | JValue.null => "None"
  | JValue.bool true => "True"
  | JValue.bool false => "False"
  | JValue.num n => toString n
  | v => jsonDump v

/-- `_format_tool_result`: dump dicts and lists as JSON, stringify the rest,
strip, report emptiness, truncate beyond `maxChars`. -/
def formatToolResult (v : JValue) (maxChars : Nat) : String :=
  let text :=
    (match v with
     | JValue.dict _ => jsonDump v
     | JValue.list _ => jsonDump v
     | w => pyStr w)
  let text := pyStrip text
  if text = "" then "Result is empty."
  else if maxChars < text.length then pyTake text maxChars ++ "... (truncated)"
  else text

/-- `_serialize_tool_output` converts framework message objects; on plain
JSON values, which are the domain of this embedding, it is the identity. -/
def serializeToolOutput (v : JValue) : JValue := v

/-! ## Stage agent (`_run_stage_agent`) -/

/-- The budget error recorded when a call is requested after the tool cap. -/
def budgetMsg : String :=
  "Tool budget limit (" ++ toString MAX_STAGE_AGENT_TOOLS ++ ") reached; cannot call more tools."

/-- The summary installed when the loop stops at the tool cap. -/
def budgetSummaryMsg : String := "Tool budget reached before this call; stopping."

/-- The error recorded when the LLM names an unknown tool. -/
def toolNotFoundMsg (nm : String) : String := "Requested tool " ++ nm ++ " was not found."

/-- The scratchpad output recorded for a non-meaningful tool result. -/
def emptyOutputMsg : String := "빈 결과 (관련 데이터 없음)"

/-- The `stage_results` update of `_run_stage_agent`: wrap a first result in
a list, append to an existing list, and lift a bare scalar into a pair
(`None` stored under the key behaves like an absent key, since the code
tests `existing_value is None`). -/
def recordResult (rs : List (String × JValue)) (label : String) (r : JValue) :
    List (String × JValue) :=
  match aget rs label with
  | none => aset rs label (JValue.list [r])
  | some JValue.null => aset rs label (JValue.list [r])
  | some (JValue.list xs) => aset rs label (JValue.list (xs ++ [r]))
  | some v => aset rs label (JValue.list [v, r])

/-- Scratchpad, `used_tools` and `stage_results` bookkeeping shared by the
error branch and the meaningful-result branch of a tool call. -/
def recordStep (st : AgentLoop) (label : String) (args result : JValue) : AgentLoop :=
  { st with
    scratch := st.scratch ++ [ScratchEntry.toolRun label args (formatToolResult result 400)]
    usedTools := st.usedTools ++ [label]
    results := recordResult st.results label result }

/-- The `for step in range(MAX_STAGE_AGENT_STEPS)` loop of `_run_stage_agent`.
`fuel` is the number of remaining iterations, `idx` the current iteration
index; `decisions idx` is the action extracted from the LLM response of
iteration `idx` and `invoke idx nm args` the outcome of the external tool
call issued there.  In source order for a requested call: tool-cap check,
tool-name validation, invocation with exception capture, meaningfulness
filter, recording. -/
def stageAgentLoop (parse : String → Option JValue) (pfuel : Nat)
    (toolMap : List (String × ResolvedMCPTool))
    (invoke : Nat → String → JValue → ToolOutcome)
    (decisions : Nat → AgentDecision) : Nat → Nat → AgentLoop → AgentLoop
  | 0, _, st => st
  | Nat.succ fuel, idx, st =>
    match decisions idx with
    | AgentDecision.finish s => { st with summary := pyStrip s }
    | AgentDecision.callTool nm args =>
      if MAX_STAGE_AGENT_TOOLS ≤ st.usedTools.length then
        { st with
          scratch := st.scratch ++ [ScratchEntry.err budgetMsg]
          summary := if st.summary = "" then budgetSummaryMsg else st.summary }
      else
        match aget toolMap nm with
        | none =>
          stageAgentLoop parse pfuel toolMap invoke decisions fuel (idx + 1)
            { st with scratch := st.scratch ++ [ScratchEntry.err (toolNotFoundMsg nm)] }
        | some rt =>
          match invoke idx nm args with
          | ToolOutcome.err msg =>
            stageAgentLoop parse pfuel toolMap invoke decisions fuel (idx + 1)
              (recordStep st rt.label args (JValue.dict [("error", JValue.str msg)]))
          | ToolOutcome.ok v =>
            let result := serializeToolOutput v
            if isMeaningfulResult parse pfuel result then
              stageAgentLoop parse pfuel toolMap invoke decisions fuel (idx + 1)
                (recordStep st rt.label args result)
            else
              stageAgentLoop parse pfuel toolMap invoke decisions fuel (idx + 1)
                { st with
                  scratch := st.scratch ++ [ScratchEntry.toolRun rt.label args emptyOutputMsg] }

/-- One line of the notes text per scratchpad entry. -/
def scratchLine : ScratchEntry → String
  | ScratchEntry.toolRun t i o => t ++ " input: " ++ jsonDump i ++ "\noutput: " ++ o
  | ScratchEntry.err m => m

/-- The notes text assembled at the end of `_run_stage_agent`. -/
def stageAgentNotes (scratch : List ScratchEntry) (summary : String) : String :=
  let lines :=
    scratch.map scratchLine ++ (if summary = "" then [] else ["Summary: " ++ summary])
  let joined := String.intercalate "\n" (lines.filter fun l => l ≠ "")
  if joined = "" then "Tool results are empty." else joined

/-- The output contract of `_run_stage_agent` and `_run_fallback_tools`. -/
structure StageOutcome where
  results : List (String × JValue)
  usedTools : List String
  status : String
  notes : String
  emitMessage : String

/-- `_run_stage_agent`: run the loop from empty locals and assemble the
outcome; `status` is `completed` exactly when the results dict is non-empty. -/
def runStageAgent (parse : String → Option JValue) (pfuel : Nat) (stageTitle : String)
    (tools : List ResolvedMCPTool) (invoke : Nat → String → JValue → ToolOutcome)
    (decisions : Nat → AgentDecision) : StageOutcome :=
  let st := stageAgentLoop parse pfuel (buildToolMap tools) invoke decisions
    MAX_STAGE_AGENT_STEPS 0 ⟨[], [], [], ""⟩
  { results := st.results
    usedTools := st.usedTools
    status := if st.results.isEmpty then "skipped" else "completed"
    notes := stageAgentNotes st.scratch st.summary
    emitMessage :=
      if st.results.isEmpty then stageTitle ++ " 단계를 건너뜁니다. 실행된 툴이 없습니다."
      else stageTitle ++ " 단계 완료 (" ++ toString st.results.length ++ "개 툴 실행)" }

/-! ## Fallback executor (`_run_fallback_tools`, `_rank_resolved_tools`,
`_build_default_tool_args`) -/

/-- The descriptor string ranked against the query: label, server name, tool
name and description, skipping empty parts, joined by spaces. -/
def toolDescriptor (r : ResolvedMCPTool) : String :=
  String.intercalate " "
    (([r.label, r.serverName, r.tool.name, r.tool.description]).filter fun part => part ≠ "")

/-- Stable descending insertion used to model Python `list.sort(key=score,
reverse=True)`: an element goes after every element with a score at least
its own, so equal scores keep their original order. -/
def insertScoredDesc (x : ℚ × ResolvedMCPTool) :
    List (ℚ × ResolvedMCPTool) → List (ℚ × ResolvedMCPTool)
  | [] => [x]
  | y :: ys => if y.1 < x.1 then x :: y :: ys else y :: insertScoredDesc x ys

/-- `_rank_resolved_tools`: score every tool with the fuzzy scorer on the
lowercased query and descriptor, keep scores of at least 30, sort stably by
descending score.  An empty query returns the tools unranked. -/
def rankResolvedTools (fz : String → String → ℚ) (query : String)
    (tools : List ResolvedMCPTool) : List ResolvedMCPTool :=
  if query = "" then tools
  else
    let scored := tools.filterMap fun r =>
      let d := toolDescriptor r
      let score := if d = "" then 0 else fz (pyLower query) (pyLower d)
      if 30 ≤ score then some (score, r) else none
    (scored.foldl (fun acc x => insertScoredDesc x acc) []).map fun x => x.2

/-- `_build_default_tool_args`: first preferred schema field, else the first
declared field, else a bare `query` argument, mapped to the query text. -/
def buildDefaultToolArgs (tool : BTool) (query : String) : JValue :=
  let preferred := ["query", "text", "prompt", "input", "question"]
  match preferred.find? (fun f => tool.fields.contains f) with
  | some f => JValue.dict [(f, JValue.str query)]
  | none =>
    match tool.fields with
    | f :: _ => JValue.dict [(f, JValue.str query)]
    | [] => JValue.dict [("query", JValue.str query)]

/-- `fallback_results.setdefault(tool_label, []).append(serialized)`.  The
local accumulator is typed with list values because `setdefault(label, [])`
guarantees every stored value is created as a list. -/
def fbRecord (rs : List (String × List JValue)) (label : String) (v : JValue) :
    List (String × List JValue) :=
  match aget rs label with
  | some vs => aset rs label (vs ++ [v])
  | none => aset rs label [v]

/-- The mutable locals of the `_run_fallback_tools` loop. -/
structure FallbackLoop where
  results : List (String × List JValue)
  usedTools : List String
  notes : List String

/-- The `for resolved in ranked_tools[:limit]` loop: default arguments,
invocation with exception capture turned into a note, meaningfulness filter,
recording. -/
def fallbackLoop (parse : String → Option JValue) (pfuel : Nat) (query : String)
    (invoke : Nat → String → JValue → ToolOutcome) :
    List ResolvedMCPTool → Nat → FallbackLoop → FallbackLoop
  | [], _, st => st
  | r :: rest, idx, st =>
    let label := r.label
    let args := buildDefaultToolArgs r.tool query
    match invoke idx r.tool.name args with
    | ToolOutcome.err msg =>
      fallbackLoop parse pfuel query invoke rest (idx + 1)
        { st with notes := st.notes ++ [label ++ " error: " ++ msg] }
    | ToolOutcome.ok v =>
      let serialized := serializeToolOutput v
      if isMeaningfulResult parse pfuel serialized then
        fallbackLoop parse pfuel query invoke rest (idx + 1)
          { results := fbRecord st.results label serialized
            usedTools := st.usedTools ++ [label]
            notes := st.notes ++
              ["[Fallback] " ++ label ++ " input=" ++ jsonDump args ++ " output=" ++
                formatToolResult serialized 400] }
      else
        fallbackLoop parse pfuel query invoke rest (idx + 1)
          { st with notes := st.notes ++
              ["[Fallback] " ++ label ++ " input=" ++ jsonDump args ++ " → 빈 결과 (데이터 없음)"] }

/-- `_run_fallback_tools`: rank the tools, take the fallback limit (all of
them when the configured limit is 0, mirroring the `or` on truthiness), run
the loop, and assemble the outcome; `status` is `completed` exactly when the
collected results are non-empty. -/
def runFallbackTools (parse : String → Option JValue) (pfuel : Nat)
    (fz : String → String → ℚ) (stageTitle query : String)
    (tools : List ResolvedMCPTool) (invoke : Nat → String → JValue → ToolOutcome) :
    StageOutcome :=
  let ranked := rankResolvedTools fz query tools
  let limit := if FALLBACK_TOOL_LIMIT = 0 then ranked.length else FALLBACK_TOOL_LIMIT
  let st := fallbackLoop parse pfuel query invoke (ranked.take limit) 0 ⟨[], [], []⟩
  let toolsExecuted := (ranked.take limit).length
  { results := st.results.map fun kv => (kv.1, JValue.list kv.2)
    usedTools := st.usedTools
    status := if st.results.isEmpty then "skipped" else "completed"
    notes :=
      if st.notes = [] then "Fallback executed but produced no tool outputs."
      else String.intercalate "\n" st.notes
    emitMessage :=
      if st.results.isEmpty then
        if 0 < toolsExecuted then
          stageTitle ++ " 단계에서 " ++ toString toolsExecuted ++
            "개 MCP 도구를 실행했으나 관련 데이터를 찾지 못했습니다."
        else stageTitle ++ " 단계에 사용 가능한 MCP 도구가 없습니다."
      else
        stageTitle ++ " 단계 기본 MCP 호출 완료 (" ++ toString st.results.length ++
          "개 툴에서 데이터 수집)" }

/-! ## Workflow stage node (`_make_workflow_stage_node`) -/

/-- One `workflow_trace` entry. -/
structure TraceEntry where
  stage : String
  goal : String
  tools : List String
  status : String
  notes : String

/-- The compiled configuration of one stage (`_compile_workflow_stages`):
the blueprint plus the partition of its requested servers into available
(`module_tools`) and missing (`missing_tools`) ones. -/
structure StageCfg where
  key : String
  title : String
  description : String
  moduleServers : List String
  missingServers : List String

/-- The slice of `GraphState` that a stage node reads and writes:
`mcp_tool_results` (stage title to per-tool results dict) and
`workflow_trace`. -/
structure StageState where
  mcpToolResults : List (String × List (String × JValue))
  workflowTrace : List TraceEntry

/-- Python `dict.update`: assign every binding of the second dict in order. -/
def dictUpdate (base upd : List (String × JValue)) : List (String × JValue) :=
  upd.foldl (fun m kv => aset m kv.1 kv.2) base

/-- The async node produced by `_make_workflow_stage_node`.  `adapter`
models `self._mcp_adapter.get_stage_tools`; the stage dict for the title is
installed (empty) before any early return, mirroring
`workflow_results[stage_title] = stage_results`.  In source order: skip when
the stage has no registered servers, skip when the adapter converts no
tools, otherwise run the stage agent and, when it used no tool and produced
no result, the fallback executor, merging trace and results. -/
def workflowStageNode (parse : String → Option JValue) (pfuel : Nat)
    (fz : String → String → ℚ) (cfg : StageCfg)
    (adapter : List String → List ResolvedMCPTool)
    (invoke : Nat → String → JValue → ToolOutcome)
    (decisions : Nat → AgentDecision)
    (fbInvoke : Nat → String → JValue → ToolOutcome)
    (query : String) (st : StageState) : StageState :=
  let trace0 : TraceEntry :=
    { stage := cfg.title
      goal := cfg.description
      tools := []
      status := "pending"
      notes :=
        if cfg.missingServers = [] then ""
        else "Missing MCP servers: " ++ String.intercalate ", " cfg.missingServers }
  if cfg.moduleServers = [] then
    { mcpToolResults := aset st.mcpToolResults cfg.title []
      workflowTrace := st.workflowTrace ++
        [{ trace0 with
            status := "skipped"
            notes := "Skipping stage because no registered MCP server tools are available." }] }
  else
    let resolvedTools := adapter cfg.moduleServers
    if resolvedTools.isEmpty then
      { mcpToolResults := aset st.mcpToolResults cfg.title []
        workflowTrace := st.workflowTrace ++
          [{ trace0 with
              status := "skipped"
              notes := trace0.notes ++ (if trace0.notes = "" then "" else "; ") ++
                "No LangChain tools were found on the selected MCP servers." }] }
    else
      let agent := runStageAgent parse pfuel cfg.title resolvedTools invoke decisions
      let trace1 : TraceEntry :=
        { trace0 with tools := agent.usedTools, status := agent.status, notes := agent.notes }
      if agent.usedTools.isEmpty && agent.results.isEmpty then
        let fb := runFallbackTools parse pfuel fz cfg.title query resolvedTools fbInvoke
        let merged := dictUpdate agent.results fb.results
        let trace2 : TraceEntry :=
          { trace1 with
            tools := trace1.tools ++ fb.usedTools
            status := fb.status
            notes :=
              if fb.notes = "" then trace1.notes
              else
                String.intercalate "\n\n"
                  (([trace1.notes, "Fallback run:\n" ++ fb.notes]).filter fun l => l ≠ "") }
        { mcpToolResults := aset st.mcpToolResults cfg.title merged
          workflowTrace := st.workflowTrace ++ [trace2] }
      else
        { mcpToolResults := aset st.mcpToolResults cfg.title agent.results
          workflowTrace := st.workflowTrace ++ [trace1] }

/-! ## MCP adapter client (`mcp_adapter_client.py`) -/

/-- The mutable state of `MCPAdapterClient`: the configured server names and
the per-server tool cache (the per-server locks only serialize concurrent
discovery and do not change the sequential semantics modelled here). -/
structure AdapterState where
  servers : List String
  toolCache : List (String × List BTool)

/-- `_get_tools_for_server`: serve from cache; cache an empty list for an
unknown server; otherwise run discovery, caching its tools on success and an
empty list when it raises, never propagating the exception. -/
def getToolsForServer (discover : String → Except String (List BTool))
    (st : AdapterState) (serverName : String) : List BTool × AdapterState :=
  match aget st.toolCache serverName with
  | some cached => (cached, st)
  | none =>
    if st.servers.contains serverName then
      match discover serverName with
      | Except.ok tools => (tools, { st with toolCache := aset st.toolCache serverName tools })
      | Except.error _ => ([], { st with toolCache := aset st.toolCache serverName [] })
    else
      ([], { st with toolCache := aset st.toolCache serverName [] })

/-- `_dedupe`: order-preserving removal of duplicate server names. -/
def dedupe (values : List String) : List String :=
  values.foldl (fun acc v => if acc.contains v then acc else acc ++ [v]) []

/-- `get_stage_tools`: resolve every deduplicated server in order and wrap
each discovered tool with its server name. -/
def getStageTools (discover : String → Except String (List BTool))
    (st : AdapterState) (serverNames : List String) :
    List ResolvedMCPTool × AdapterState :=
  (dedupe serverNames).foldl
    (fun acc n =>
      let r := getToolsForServer discover acc.2 n
      (acc.1 ++ r.1.map fun t => ResolvedMCPTool.mk n t, r.2))
    ([], st)

/-! ## Orchestration graph (`_build_graph` and the branch functions)

The graph nodes are embedded as a small-step machine over the routing slice
of `GraphState` (`step_count`, `_stage_visit_counts`, `next`,
`_classify_is_mcp`, `_history_needs_summary`).  External nondeterminism
(the LLM answers and the history length test, whose free text is not part
of this slice) is supplied by an oracle indexed by the machine time.  The
data effects of stage execution are modelled separately by
`workflowStageNode` above; here `mcp_execution` contributes exactly its
routing effect, the visit-count increment of `_execute_mcp_node`. -/

/-- The nodes of the compiled graph, plus the `END` sentinel. -/
inductive GNode where
  | router
  | classify
  | classifyMcp
  | directAnswer
  | mcpExecution
  | historyCheck
  | summary
  | incrementStep
  | searchQuery
  | vectorSearch
  | finalAnswer
  | done
deriving DecidableEq

/-- The routing slice of `GraphState`. -/
structure GConfig where
  node : GNode
  stepCount : Nat
  visits : List (String × Nat)
  next : String
  isMcp : Bool
  needsSummary : Bool

/-- External inputs of one run: the question, the fuzzy scorer, the general
classifier verdict, and per-time LLM router responses and history-length
verdicts. -/
structure GOracle where
  question : String
  fz : String → String → ℚ
  classifyLLM : String
  llmNext : Nat → Option String
  needsSum : Nat → Bool

/-- One step of the compiled graph from a non-terminal node, combining each
node body with its outgoing (conditional) edge from `_build_graph`. -/
def gstep (o : GOracle) (t : Nat) (c : GConfig) : GConfig :=
  match c.node with
  | GNode.router => { c with node := GNode.classify }
  | GNode.classify =>
    let m := classifyIsMcp o.fz o.classifyLLM o.question
    { c with isMcp := m, node := if m then GNode.classifyMcp else GNode.directAnswer }
  | GNode.classifyMcp =>
    let nxt := classifyMcpChoice c.visits c.stepCount (o.llmNext t)
    { c with
      next := nxt
      node := if pyUpper nxt = "AG" then GNode.searchQuery else GNode.mcpExecution }
  | GNode.mcpExecution =>
    let nextAgent := pyUpper (if c.next = "" then "TV" else c.next)
    let stageKey := (mcpAgentToStage nextAgent).getD "target_agent"
    { c with
      visits := aset c.visits stageKey (vget c.visits stageKey + 1)
      node := GNode.historyCheck }
  | GNode.historyCheck =>
    let need := o.needsSum t
    { c with
      needsSummary := need
      node := if need then GNode.summary else GNode.incrementStep }
  | GNode.summary => { c with needsSummary := false, node := GNode.incrementStep }
  | GNode.incrementStep =>
    { c with
      stepCount := c.stepCount + 1
      node :=
        if MAX_WORKFLOW_ITERATIONS ≤ c.stepCount + 1 then GNode.searchQuery
        else GNode.classifyMcp }
  | GNode.searchQuery => { c with node := GNode.vectorSearch }
  | GNode.vectorSearch => { c with node := GNode.finalAnswer }
  | GNode.finalAnswer => { c with node := GNode.done }
  | GNode.directAnswer => { c with node := GNode.done }
  | GNode.done => c

/-- Run the machine for `fuel` steps from time `t`. -/
def grun (o : GOracle) : Nat → Nat → GConfig → GConfig
  | _, 0, c => c
  | t, Nat.succ fuel, c => grun o (t + 1) fuel (gstep o t c)

/-- The initial state built by `run`: entry node, `step_count = 0`, no
visits, empty `next`. -/
def initConfig : GConfig :=
  { node := GNode.router
    stepCount := 0
    visits := []
    next := ""
    isMcp := false
    needsSummary := false }

/-- Remaining iteration budget (truncated subtraction caps it at 0). -/
def remBudget (stepCount : Nat) : Nat := MAX_WORKFLOW_ITERATIONS - stepCount

/-- Termination measure for the graph: a rank per node plus six times the
remaining budget for every node that can still reach the loop. -/
def gmeasure (c : GConfig) : Nat :=
  match c.node with
  | GNode.done => 0
  | GNode.finalAnswer => 1
  | GNode.directAnswer => 1
  | GNode.vectorSearch => 2
  | GNode.searchQuery => 3
  | GNode.incrementStep => 5 + 6 * remBudget c.stepCount
  | GNode.summary => 6 + 6 * remBudget c.stepCount
  | GNode.historyCheck => 7 + 6 * remBudget c.stepCount
  | GNode.mcpExecution => 8 + 6 * remBudget c.stepCount
  | GNode.classifyMcp => 9 + 6 * remBudget c.stepCount
  | GNode.classify => 10 + 6 * remBudget c.stepCount
  | GNode.router => 11 + 6 * remBudget c.stepCount

/-! ## Shared helper lemmas -/

theorem isMeaningfulResult_dict (parse : String → Option JValue) (pfuel : Nat)
    (kvs : List (String × JValue)) :
    isMeaningfulResult parse pfuel (JValue.dict kvs) =
      (if kvs.isEmpty then false
       else if hitsFieldEmpty kvs then false
       else if nestedSearchHitsEmpty kvs then false
       else if resultsFieldEmpty kvs then false
       else kvs.any fun kv => !(isTrivialValue kv.2)) := by
  simp [isMeaningfulResult]

theorem hitsFieldEmpty_of (kvs : List (String × JValue))
    (h : aget kvs "hits" = some (JValue.list [])) : hitsFieldEmpty kvs = true := by
  simp [hitsFieldEmpty, h]

theorem resultsFieldEmpty_of (kvs : List (String × JValue))
    (h : aget kvs "results" = some (JValue.list [])) : resultsFieldEmpty kvs = true := by
  simp [resultsFieldEmpty, h]

theorem nestedSearchHitsEmpty_of (kvs d s : List (String × JValue))
    (hd : aget kvs "data" = some (JValue.dict d))
    (hs : aget d "search" = some (JValue.dict s))
    (hh : aget s "hits" = some (JValue.list [])) : nestedSearchHitsEmpty kvs = true := by
  simp [nestedSearchHitsEmpty, hd, hs, hh]

/-- A trivial parse function standing for `json.loads` in witnesses. -/
def parseNone : String → Option JValue := fun _ => none

/-! ## C6 -/

/-- C6: the meaningfulness classifier returns false for null, for blank
strings, for the empty list, for the empty mapping, and for any mapping
whose recognized pagination fields — `hits`, `results`, or the nested
`data` / `search` / `hits` chain — are present but hold empty lists. -/
theorem meaningless_inputs_rejected (parse : String → Option JValue) (pfuel : Nat) :
    isMeaningfulResult parse pfuel JValue.null = false
    ∧ (∀ s : String, pyStrip s = "" → isMeaningfulResult parse pfuel (JValue.str s) = false)
    ∧ isMeaningfulResult parse pfuel (JValue.list []) = false
    ∧ isMeaningfulResult parse pfuel (JValue.dict []) = false
    ∧ (∀ kvs, aget kvs "hits" = some (JValue.list []) →
        isMeaningfulResult parse pfuel (JValue.dict kvs) = false)
    ∧ (∀ kvs, aget kvs "results" = some (JValue.list []) →
        isMeaningfulResult parse pfuel (JValue.dict kvs) = false)
    ∧ (∀ kvs d s, aget kvs "data" = some (JValue.dict d) →
        aget d "search" = some (JValue.dict s) →
        aget s "hits" = some (JValue.list []) →
        isMeaningfulResult parse pfuel (JValue.dict kvs) = false) := by
  refine ⟨?_, ?_, ?_, ?_, ?_, ?_, ?_⟩
  · simp [isMeaningfulResult]
  · intro s hs
    rw [isMeaningfulResult.eq_def]
    simp [hs]
  · simp [isMeaningfulResult]
  · simp [isMeaningfulResult]
  · intro kvs h
    rw [isMeaningfulResult_dict]
    by_cases he : kvs.isEmpty <;> simp [he, hitsFieldEmpty_of kvs h]
  · intro kvs h
    rw [isMeaningfulResult_dict]
    by_cases he : kvs.isEmpty
    · simp [he]
    · by_cases hh : hitsFieldEmpty kvs <;>
        by_cases hn : nestedSearchHitsEmpty kvs <;>
          simp [he, hh, hn, resultsFieldEmpty_of kvs h]
  · intro kvs d s hd hs hh
    rw [isMeaningfulResult_dict]
    by_cases he : kvs.isEmpty
    · simp [he]
    · by_cases hhits : hitsFieldEmpty kvs <;>
        simp [he, hhits, nestedSearchHitsEmpty_of kvs d s hd hs hh]

/-- C6 witness: the theorem instantiated at a concrete parse function and
fuel, with the dict hypotheses discharged on concrete mappings. -/
theorem meaningless_inputs_rejected_witness :
    isMeaningfulResult parseNone 0 JValue.null = false
    ∧ isMeaningfulResult parseNone 0 (JValue.str "  ") = false
    ∧ isMeaningfulResult parseNone 0 (JValue.list []) = false
    ∧ isMeaningfulResult parseNone 0 (JValue.dict []) = false
    ∧ isMeaningfulResult parseNone 0
        (JValue.dict [("hits", JValue.list []), ("total", JValue.num 0)]) = false
    ∧ isMeaningfulResult parseNone 0 (JValue.dict [("results", JValue.list [])]) = false
    ∧ isMeaningfulResult parseNone 0
        (JValue.dict
          [("data", JValue.dict
            [("search", JValue.dict [("hits", JValue.list []), ("total", JValue.num 0)])])]) =
        false := by
  obtain ⟨h1, h2, h3, h4, h5, h6, h7⟩ := meaningless_inputs_rejected parseNone 0
  exact ⟨h1, h2 "  " (by decide), h3, h4,
    h5 _ (by rfl), h6 _ (by rfl),
    h7 _ _ _ (by rfl) (by rfl) (by rfl)⟩

/-! ## C7 -/

/-- C7: whenever the best fuzzy partial-ratio score of the question against
the professional keyword list is at least 80, or some keyword is literally
contained in the question case-insensitively, the classifier decides for the
domain pipeline whatever the LLM verdict was, and the classify branch of the
graph then enters `classify_mcp`. -/
theorem keyword_override_forces_mcp (fz : String → String → ℚ) (llm question : String)
    (h : 80 ≤ maxKeywordScore fz question ∨ detectProfessionalKeywords question = true) :
    classifyIsMcp fz llm question = true
    ∧ (∀ (o : GOracle) (t : Nat) (c : GConfig),
        o.fz = fz → o.classifyLLM = llm → o.question = question →
        c.node = GNode.classify → (gstep o t c).node = GNode.classifyMcp) := by
  have hm : classifyIsMcp fz llm question = true := by
    unfold classifyIsMcp
    rcases h with h | h
    · simp [h]
    · simp [h]
  refine ⟨hm, ?_⟩
  intro o t c hfz hllm hq hc
  subst hfz; subst hllm; subst hq
  simp [gstep, hc, hm]

/-- A zero fuzzy scorer for witnesses. -/
def fzZero : String → String → ℚ := fun _ _ => 0

/-- C7 witness: a question containing the protein-structure keywords is
forced into the MCP pipeline even though the LLM verdict is the general one. -/
theorem keyword_override_forces_mcp_witness :
    classifyIsMcp fzZero "일반" "단백질 구조 예측을 도와줘" = true :=
  (keyword_override_forces_mcp fzZero "일반" "단백질 구조 예측을 도와줘" (Or.inr (by decide))).1

/-! ## C2 -/

theorem nextUnvisitedAgent_spec (visits : List (String × Nat)) (p : String)
    (hp : nextUnvisitedAgent visits = some p) :
    ∃ stp, mcpAgentToStage p = some stp ∧ vget visits stp = 0 := by
  unfold nextUnvisitedAgent at hp
  have hpred := List.find?_some hp
  revert hpred
  cases hmp : mcpAgentToStage p with
  | none => simp
  | some st =>
    intro hpred
    exact ⟨st, rfl, by simpa using hpred⟩

theorem nextUnvisitedAgent_mem (visits : List (String × Nat)) (p : String)
    (hp : nextUnvisitedAgent visits = some p) :
    MCP_AGENT_CHOICES.contains p = true := by
  have hmem := List.mem_of_find?_eq_some hp
  simp only [agentPriority, List.mem_cons, List.not_mem_nil, or_false] at hmem
  rcases hmem with h | h | h | h <;> subst h <;> decide

theorem mcpAgentToStage_inv (a k : String) (h : mcpAgentToStage a = some k) :
    a = "TV" ∨ a = "CD" ∨ a = "SA" ∨ a = "PI" := by
  by_cases h1 : a = "TV"
  · exact Or.inl h1
  by_cases h2 : a = "CD"
  · exact Or.inr (Or.inl h2)
  by_cases h3 : a = "SA"
  · exact Or.inr (Or.inr (Or.inl h3))
  by_cases h4 : a = "PI"
  · exact Or.inr (Or.inr (Or.inr h4))
  exfalso
  simp [mcpAgentToStage, h1, h2, h3, h4] at h

theorem mcpAgentToStage_mem_choices (a k : String) (h : mcpAgentToStage a = some k) :
    MCP_AGENT_CHOICES.contains a = true := by
  rcases mcpAgentToStage_inv a k h with h' | h' | h' | h' <;> subst h' <;> decide

/-- C2: while some mapped stage is still unvisited, the agent selected by
`_classify_mcp_node` never maps to a stage with a positive visit count; and
in each of the three degraded situations — JSON parse failure, a choice that
is not a valid agent code, a choice whose stage was already visited — the
selection is overridden with the first unvisited agent in priority order. -/
theorem router_never_reselects_visited (visits : List (String × Nat)) (stepCount : Nat)
    (llm : Option String) (hpend : nextUnvisitedAgent visits ≠ none) :
    (∀ stageKey, mcpAgentToStage (classifyMcpChoice visits stepCount llm) = some stageKey →
        vget visits stageKey = 0)
    ∧ (stepCount < MAX_WORKFLOW_ITERATIONS → llm = none →
        classifyMcpChoice visits stepCount llm = (nextUnvisitedAgent visits).getD "TV")
    ∧ (∀ s, stepCount < MAX_WORKFLOW_ITERATIONS → llm = some s →
        MCP_AGENT_CHOICES.contains (pyUpper (pyStrip s)) = false →
        classifyMcpChoice visits stepCount llm = (nextUnvisitedAgent visits).getD "TV")
    ∧ (∀ s stageKey, stepCount < MAX_WORKFLOW_ITERATIONS → llm = some s →
        mcpAgentToStage (pyUpper (pyStrip s)) = some stageKey →
        0 < vget visits stageKey →
        classifyMcpChoice visits stepCount llm = (nextUnvisitedAgent visits).getD "TV") := by
  obtain ⟨p, hp⟩ := Option.ne_none_iff_exists'.mp hpend
  obtain ⟨stp, hmap, hzero⟩ := nextUnvisitedAgent_spec visits p hp
  have hcont : MCP_AGENT_CHOICES.contains p = true := nextUnvisitedAgent_mem visits p hp
  refine ⟨?_, ?_, ?_, ?_⟩
  · intro stageKey
    unfold classifyMcpChoice
    rw [hp]
    by_cases hbud :
        MAX_WORKFLOW_ITERATIONS ≤ stepCount ∨ ((some p : Option String) = none ∧ visits ≠ [])
    · rw [if_pos hbud]
      intro hsk
      simp [mcpAgentToStage] at hsk
    · rw [if_neg hbud]
      simp only [Option.getD_some]
      set c0 := (match llm with | some s => pyUpper (pyStrip s) | none => p) with hc0
      by_cases hin : MCP_AGENT_CHOICES.contains c0
      · rw [if_pos hin]
        cases hm1 : mcpAgentToStage c0 with
        | none =>
          intro hsk
          simp [hm1] at hsk
        | some st1 =>
          by_cases hcond : 0 < vget visits st1 ∧ p ≠ c0
          · intro hsk
            simp [hcond.1, hcond.2, hmap] at hsk
            subst hsk
            exact hzero
          · intro hsk
            simp [hcond, hm1] at hsk
            subst hsk
            rcases Decidable.not_and_iff_or_not.mp hcond with hv | hpe
            · omega
            · have hpc : p = c0 := Decidable.not_not.mp hpe
              rw [hpc] at hmap
              rw [hmap] at hm1
              simp only [Option.some.injEq] at hm1
              subst hm1
              exact hzero
      · rw [if_neg hin]
        intro hsk
        simp [hmap, hzero] at hsk
        subst hsk
        exact hzero
  · intro hb hnone
    subst hnone
    unfold classifyMcpChoice
    rw [hp]
    rw [if_neg (by simp [Nat.not_le.mpr hb])]
    simp [hcont, hmap, hzero]
  · intro s hb hsome hnc
    subst hsome
    unfold classifyMcpChoice
    rw [hp]
    rw [if_neg (by simp [Nat.not_le.mpr hb])]
    have hnc' : pyUpper (pyStrip s) ∉ MCP_AGENT_CHOICES := by simpa using hnc
    simp [hnc', hmap, hzero]
  · intro s stageKey hb hsome hmaps hpos
    subst hsome
    unfold classifyMcpChoice
    rw [hp]
    rw [if_neg (by simp [Nat.not_le.mpr hb])]
    have hin : pyUpper (pyStrip s) ∈ MCP_AGENT_CHOICES := by
      simpa using mcpAgentToStage_mem_choices _ _ hmaps
    have hne : p ≠ pyUpper (pyStrip s) := by
      intro he
      rw [he] at hmap
      rw [hmap] at hmaps
      simp only [Option.some.injEq] at hmaps
      subst hmaps
      omega
    simp [hin, hmaps, hpos, hne]

/-- C2 witness: with the target stage already visited and the LLM asking for
it again, the router overrides the choice with the first unvisited agent. -/
theorem router_never_reselects_visited_witness :
    classifyMcpChoice [("target_agent", 1)] 1 (some "TV") =
      (nextUnvisitedAgent [("target_agent", 1)]).getD "TV" :=
  (router_never_reselects_visited [("target_agent", 1)] 1 (some "TV") (by decide)).2.2.2
    "TV" "target_agent" (by decide) rfl (by decide) (by decide)

/-! ## C9 -/

/-- C9: for a server group whose discovery raises, or that the registry does
not know, `_get_tools_for_server` returns and caches an empty tool list
instead of propagating the exception, a cached empty list keeps being
served, and `get_stage_tools` then resolves the group to no tools without
raising. -/
theorem discovery_failure_non_fatal (discover : String → Except String (List BTool))
    (st : AdapterState) (serverName : String)
    (hmiss : aget st.toolCache serverName = none)
    (hfail : (∃ e, discover serverName = Except.error e) ∨
      st.servers.contains serverName = false) :
    (getToolsForServer discover st serverName).1 = []
    ∧ aget (getToolsForServer discover st serverName).2.toolCache serverName = some []
    ∧ (getStageTools discover st [serverName]).1 = []
    ∧ (∀ st2 : AdapterState, aget st2.toolCache serverName = some [] →
        (getToolsForServer discover st2 serverName).1 = []) := by
  have hcore : getToolsForServer discover st serverName =
      ([], { st with toolCache := aset st.toolCache serverName [] }) := by
    unfold getToolsForServer
    rw [hmiss]
    by_cases hsv : st.servers.contains serverName
    · rcases hfail with ⟨e, he⟩ | hno
      · rw [if_pos hsv, he]
      · rw [hno] at hsv
        simp at hsv
    · rw [if_neg hsv]
  refine ⟨by rw [hcore], by rw [hcore]; simp [aget_aset], ?_, ?_⟩
  · unfold getStageTools
    have hd : dedupe [serverName] = [serverName] := by simp [dedupe]
    rw [hd]
    simp [hcore]
  · intro st2 h2
    unfold getToolsForServer
    rw [h2]

/-- C9 witness: a failing discovery call on a known server yields the empty
cached tool list. -/
theorem discovery_failure_non_fatal_witness :
    (getToolsForServer (fun _ => Except.error "boom") ⟨["A"], []⟩ "A").1 = []
    ∧ aget (getToolsForServer (fun _ => Except.error "boom") ⟨["A"], []⟩ "A").2.toolCache "A" =
        some []
    ∧ (getStageTools (fun _ => Except.error "boom") ⟨["A"], []⟩ ["A"]).1 = [] := by
  obtain ⟨h1, h2, h3, _⟩ :=
    discovery_failure_non_fatal (fun _ => Except.error "boom") ⟨["A"], []⟩ "A"
      (by rfl) (Or.inl ⟨"boom", rfl⟩)
  exact ⟨h1, h2, h3⟩

/-! ## C4 -/

theorem statusHelper (l : List (String × JValue)) :
    ((if l.isEmpty then "skipped" else "completed") = "completed" ↔ l ≠ [])
    ∧ ((if l.isEmpty then "skipped" else "completed") = "skipped" ↔ l = []) := by
  cases l <;> refine ⟨?_, ?_⟩ <;> simp <;> decide

theorem statusHelperF (l : List (String × List JValue)) :
    ((if l.isEmpty then "skipped" else "completed") = "completed" ↔
      (l.map fun kv => (kv.1, JValue.list kv.2)) ≠ [])
    ∧ ((if l.isEmpty then "skipped" else "completed") = "skipped" ↔
      (l.map fun kv => (kv.1, JValue.list kv.2)) = []) := by
  cases l <;> refine ⟨?_, ?_⟩ <;> simp <;> decide

/-- C4: for every stage-agent run and every fallback run, the returned
status is `completed` exactly when the returned results mapping is
non-empty, and `skipped` exactly when it is empty. -/
theorem status_completed_iff_results (parse : String → Option JValue) (pfuel : Nat)
    (stageTitle query : String) (tools : List ResolvedMCPTool)
    (invoke fbInvoke : Nat → String → JValue → ToolOutcome)
    (decisions : Nat → AgentDecision) (fz : String → String → ℚ) :
    ((runStageAgent parse pfuel stageTitle tools invoke decisions).status = "completed" ↔
        (runStageAgent parse pfuel stageTitle tools invoke decisions).results ≠ [])
    ∧ ((runStageAgent parse pfuel stageTitle tools invoke decisions).status = "skipped" ↔
        (runStageAgent parse pfuel stageTitle tools invoke decisions).results = [])
    ∧ ((runFallbackTools parse pfuel fz stageTitle query tools fbInvoke).status = "completed" ↔
        (runFallbackTools parse pfuel fz stageTitle query tools fbInvoke).results ≠ [])
    ∧ ((runFallbackTools parse pfuel fz stageTitle query tools fbInvoke).status = "skipped" ↔
        (runFallbackTools parse pfuel fz stageTitle query tools fbInvoke).results = []) := by
  refine ⟨?_, ?_, ?_, ?_⟩
  · exact (statusHelper _).1
  · exact (statusHelper _).2
  · exact (statusHelperF _).1
  · exact (statusHelperF _).2

/-- C4 witness: a stage agent that finishes immediately reports a skipped
status and an empty results mapping. -/
theorem status_completed_iff_results_witness :
    (runStageAgent parseNone 0 "TargetAgent" [] (fun _ _ _ => ToolOutcome.err "down")
        (fun _ => AgentDecision.finish "done")).status = "skipped" ↔
    (runStageAgent parseNone 0 "TargetAgent" [] (fun _ _ _ => ToolOutcome.err "down")
        (fun _ => AgentDecision.finish "done")).results = [] :=
  (status_completed_iff_results parseNone 0 "TargetAgent" "q" []
    (fun _ _ _ => ToolOutcome.err "down") (fun _ _ _ => ToolOutcome.err "down")
    (fun _ => AgentDecision.finish "done") fzZero).2.1

/-! ## C5 -/

/-- Every value stored in a per-stage results dict is a non-empty list. -/
def ListValued (rs : List (String × JValue)) : Prop :=
  ∀ k v, aget rs k = some v → ∃ xs, v = JValue.list xs ∧ xs ≠ []

theorem aset_listValued (rs : List (String × JValue)) (k : String) (v : JValue)
    (h : ListValued rs) (hv : ∃ xs, v = JValue.list xs ∧ xs ≠ []) :
    ListValued (aset rs k v) := by
  intro k' w hw
  rw [aget_aset] at hw
  by_cases hk : k' = k
  · rw [if_pos hk] at hw
    cases hw
    exact hv
  · rw [if_neg hk] at hw
    exact h k' w hw

theorem recordResult_listValued (rs : List (String × JValue)) (label : String) (r : JValue)
    (h : ListValued rs) : ListValued (recordResult rs label r) := by
  unfold recordResult
  cases hl : aget rs label with
  | none => exact aset_listValued rs label _ h ⟨[r], rfl, by simp⟩
  | some v =>
    cases v with
    | null => exact aset_listValued rs label _ h ⟨[r], rfl, by simp⟩
    | list xs => exact aset_listValued rs label _ h ⟨xs ++ [r], rfl, by simp⟩
    | bool b => exact aset_listValued rs label _ h ⟨[JValue.bool b, r], rfl, by simp⟩
    | num n => exact aset_listValued rs label _ h ⟨[JValue.num n, r], rfl, by simp⟩
    | str s => exact aset_listValued rs label _ h ⟨[JValue.str s, r], rfl, by simp⟩
    | dict kvs => exact aset_listValued rs label _ h ⟨[JValue.dict kvs, r], rfl, by simp⟩

theorem stageAgentLoop_listValued (parse : String → Option JValue) (pfuel : Nat)
    (toolMap : List (String × ResolvedMCPTool)) (invoke : Nat → String → JValue → ToolOutcome)
    (decisions : Nat → AgentDecision) :
    ∀ fuel idx st, ListValued st.results →
      ListValued (stageAgentLoop parse pfuel toolMap invoke decisions fuel idx st).results := by
  intro fuel
  induction fuel with
  | zero =>
    intro idx st h
    simpa [stageAgentLoop] using h
  | succ fuel ih =>
    intro idx st h
    rw [stageAgentLoop]
    cases hdec : decisions idx with
    | finish s => simpa using h
    | callTool nm args =>
      dsimp only
      by_cases hcap : MAX_STAGE_AGENT_TOOLS ≤ st.usedTools.length
      · simpa [hcap] using h
      · rw [if_neg hcap]
        cases hfind : aget toolMap nm with
        | none => exact ih _ _ h
        | some rt =>
          dsimp only
          cases hinv : invoke idx nm args with
          | err msg => exact ih _ _ (recordResult_listValued _ _ _ h)
          | ok v =>
            dsimp only
            by_cases hme : isMeaningfulResult parse pfuel (serializeToolOutput v)
            · rw [if_pos hme]
              exact ih _ _ (recordResult_listValued _ _ _ h)
            · rw [if_neg hme]
              exact ih _ _ h

theorem aget_map_wrap (l : List (String × List JValue)) (k : String) :
    aget (l.map fun kv => (kv.1, JValue.list kv.2)) k =
      (aget l k).map JValue.list := by
  induction l with
  | nil => rfl
  | cons kv t ih =>
    obtain ⟨k0, v0⟩ := kv
    by_cases h : k = k0 <;> simp [aget, h, ih]

theorem aset_mem {α : Type} (rs : List (String × α)) (k : String) (v : α) :
    ∀ kv ∈ aset rs k v, kv ∈ rs ∨ kv = (k, v) := by
  induction rs with
  | nil => simp [aset]
  | cons hd t ih =>
    obtain ⟨k0, v0⟩ := hd
    intro kv hkv
    by_cases h : k = k0
    · rw [aset, if_pos h] at hkv
      rcases List.mem_cons.mp hkv with h1 | h1
      · right; rw [h1, h]
      · left; exact List.mem_cons_of_mem _ h1
    · rw [aset, if_neg h] at hkv
      rcases List.mem_cons.mp hkv with h1 | h1
      · left; rw [h1]; exact List.mem_cons_self _ _
      · rcases ih kv h1 with h2 | h2
        · left; exact List.mem_cons_of_mem _ h2
        · right; exact h2

theorem fbRecord_mem_nonempty (rs : List (String × List JValue)) (label : String) (v : JValue)
    (h : ∀ kv ∈ rs, kv.2 ≠ []) : ∀ kv ∈ fbRecord rs label v, kv.2 ≠ [] := by
  unfold fbRecord
  cases hl : aget rs label with
  | none =>
    intro kv hkv
    rcases aset_mem rs label [v] kv hkv with h1 | h1
    · exact h kv h1
    · rw [h1]; simp
  | some vs =>
    intro kv hkv
    rcases aset_mem rs label (vs ++ [v]) kv hkv with h1 | h1
    · exact h kv h1
    · rw [h1]; simp

theorem fallbackLoop_mem_nonempty (parse : String → Option JValue) (pfuel : Nat)
    (query : String) (invoke : Nat → String → JValue → ToolOutcome) :
    ∀ (ranked : List ResolvedMCPTool) (idx : Nat) (st : FallbackLoop),
      (∀ kv ∈ st.results, kv.2 ≠ []) →
      ∀ kv ∈ (fallbackLoop parse pfuel query invoke ranked idx st).results, kv.2 ≠ [] := by
  intro ranked
  induction ranked with
  | nil =>
    intro idx st h
    simpa [fallbackLoop] using h
  | cons r rest ih =>
    intro idx st h
    rw [fallbackLoop]
    dsimp only
    cases hinv : invoke idx r.tool.name (buildDefaultToolArgs r.tool query) with
    | err msg => exact ih _ _ h
    | ok v =>
      dsimp only
      by_cases hme : isMeaningfulResult parse pfuel (serializeToolOutput v)
      · rw [if_pos hme]
        exact ih _ _ (fbRecord_mem_nonempty _ _ _ h)
      · rw [if_neg hme]
        exact ih _ _ h

theorem listValued_nil : ListValued [] := by
  intro k v h
  simp [aget] at h

theorem aget_mem {α : Type} :
    ∀ (rs : List (String × α)) (key : String) (v : α),
      aget rs key = some v → ∃ k0, (k0, v) ∈ rs := by
  intro rs
  induction rs with
  | nil =>
    intro key v h
    simp [aget] at h
  | cons hd t ih =>
    obtain ⟨k0, v0⟩ := hd
    intro key v h
    rw [aget] at h
    by_cases hk : key = k0
    · rw [if_pos hk] at h
      cases h
      exact ⟨k0, List.mem_cons_self _ _⟩
    · rw [if_neg hk] at h
      obtain ⟨k1, hm⟩ := ih key v h
      exact ⟨k1, List.mem_cons_of_mem _ hm⟩

theorem runStageAgent_listValued (parse : String → Option JValue) (pfuel : Nat)
    (stageTitle : String) (tools : List ResolvedMCPTool)
    (invoke : Nat → String → JValue → ToolOutcome) (decisions : Nat → AgentDecision) :
    ListValued (runStageAgent parse pfuel stageTitle tools invoke decisions).results :=
  stageAgentLoop_listValued parse pfuel (buildToolMap tools) invoke decisions
    MAX_STAGE_AGENT_STEPS 0 ⟨[], [], [], ""⟩ listValued_nil

theorem runFallbackTools_mem (parse : String → Option JValue) (pfuel : Nat)
    (fz : String → String → ℚ) (stageTitle query : String)
    (tools : List ResolvedMCPTool) (invoke : Nat → String → JValue → ToolOutcome) :
    ∀ kv ∈ (runFallbackTools parse pfuel fz stageTitle query tools invoke).results,
      ∃ xs, kv.2 = JValue.list xs ∧ xs ≠ [] := by
  intro kv hkv
  have hkv' : kv ∈ (fallbackLoop parse pfuel query invoke
      ((rankResolvedTools fz query tools).take
        (if FALLBACK_TOOL_LIMIT = 0 then (rankResolvedTools fz query tools).length
         else FALLBACK_TOOL_LIMIT)) 0 ⟨[], [], []⟩).results.map
      (fun kv => (kv.1, JValue.list kv.2)) := hkv
  obtain ⟨⟨k0, vs⟩, hmem, heq⟩ := List.mem_map.mp hkv'
  refine ⟨vs, ?_, ?_⟩
  · rw [← heq]
  · exact fallbackLoop_mem_nonempty parse pfuel query invoke _ 0 ⟨[], [], []⟩
      (by intro kv hkv; simp at hkv) _ hmem

theorem runFallbackTools_listValued (parse : String → Option JValue) (pfuel : Nat)
    (fz : String → String → ℚ) (stageTitle query : String)
    (tools : List ResolvedMCPTool) (invoke : Nat → String → JValue → ToolOutcome) :
    ListValued (runFallbackTools parse pfuel fz stageTitle query tools invoke).results := by
  intro k v hv
  obtain ⟨k0, hmem⟩ := aget_mem _ _ _ hv
  exact runFallbackTools_mem parse pfuel fz stageTitle query tools invoke (k0, v) hmem

theorem dictUpdate_listValued (base upd : List (String × JValue)) (hb : ListValued base)
    (hu : ∀ kv ∈ upd, ∃ xs, kv.2 = JValue.list xs ∧ xs ≠ []) :
    ListValued (dictUpdate base upd) := by
  induction upd generalizing base with
  | nil => simpa [dictUpdate] using hb
  | cons kv t ih =>
    rw [show dictUpdate base (kv :: t) = dictUpdate (aset base kv.1 kv.2) t from rfl]
    apply ih
    · obtain ⟨xs, hx, hne⟩ := hu kv (List.mem_cons_self _ _)
      exact aset_listValued base kv.1 kv.2 hb ⟨xs, hx, hne⟩
    · intro kv' h'
      exact hu kv' (List.mem_cons_of_mem _ h')

/-- C5: every value stored under a tool label — by the stage agent, by the
fallback executor, and in the per-stage dict that the stage node installs
into `mcp_tool_results` — is a non-empty list, already on the first
invocation of a label; and re-invoking a label appends to the existing list
instead of overwriting it. -/
theorem stage_results_always_lists (parse : String → Option JValue) (pfuel : Nat)
    (stageTitle query : String) (tools : List ResolvedMCPTool)
    (invoke fbInvoke : Nat → String → JValue → ToolOutcome)
    (decisions : Nat → AgentDecision) (fz : String → String → ℚ)
    (cfg : StageCfg) (adapter : List String → List ResolvedMCPTool) (st : StageState) :
    (∀ k v, aget (runStageAgent parse pfuel stageTitle tools invoke decisions).results k =
          some v → ∃ xs, v = JValue.list xs ∧ xs ≠ [])
    ∧ (∀ k v, aget (runFallbackTools parse pfuel fz stageTitle query tools fbInvoke).results k =
          some v → ∃ xs, v = JValue.list xs ∧ xs ≠ [])
    ∧ (∀ rs label r xs, aget rs label = some (JValue.list xs) →
        aget (recordResult rs label r) label = some (JValue.list (xs ++ [r])))
    ∧ (∀ title d k v,
        (∀ t0 d0, aget st.mcpToolResults t0 = some d0 → ListValued d0) →
        aget (workflowStageNode parse pfuel fz cfg adapter invoke decisions fbInvoke query
            st).mcpToolResults title = some d →
        aget d k = some v → ∃ xs, v = JValue.list xs ∧ xs ≠ []) := by
  refine ⟨runStageAgent_listValued parse pfuel stageTitle tools invoke decisions,
    runFallbackTools_listValued parse pfuel fz stageTitle query tools fbInvoke, ?_, ?_⟩
  · intro rs label r xs h
    unfold recordResult
    rw [h]
    rw [aget_aset]
    simp
  · intro title d k v hinv hd hk
    unfold workflowStageNode at hd
    dsimp only at hd
    by_cases h1 : cfg.moduleServers = []
    · rw [if_pos h1] at hd
      dsimp only at hd
      rw [aget_aset] at hd
      by_cases ht : title = cfg.title
      · rw [if_pos ht] at hd
        cases hd
        exact listValued_nil k v hk
      · rw [if_neg ht] at hd
        exact hinv _ _ hd k v hk
    · rw [if_neg h1] at hd
      by_cases h2 : (adapter cfg.moduleServers).isEmpty
      · rw [if_pos h2] at hd
        dsimp only at hd
        rw [aget_aset] at hd
        by_cases ht : title = cfg.title
        · rw [if_pos ht] at hd
          cases hd
          exact listValued_nil k v hk
        · rw [if_neg ht] at hd
          exact hinv _ _ hd k v hk
      · rw [if_neg h2] at hd
        by_cases h3 :
            ((runStageAgent parse pfuel cfg.title (adapter cfg.moduleServers) invoke
                decisions).usedTools.isEmpty &&
              (runStageAgent parse pfuel cfg.title (adapter cfg.moduleServers) invoke
                decisions).results.isEmpty) = true
        · rw [if_pos h3] at hd
          dsimp only at hd
          rw [aget_aset] at hd
          by_cases ht : title = cfg.title
          · rw [if_pos ht] at hd
            cases hd
            exact dictUpdate_listValued _ _
              (runStageAgent_listValued parse pfuel cfg.title (adapter cfg.moduleServers)
                invoke decisions)
              (runFallbackTools_mem parse pfuel fz cfg.title query (adapter cfg.moduleServers)
                fbInvoke) k v hk
          · rw [if_neg ht] at hd
            exact hinv _ _ hd k v hk
        · rw [if_neg h3] at hd
          dsimp only at hd
          rw [aget_aset] at hd
          by_cases ht : title = cfg.title
          · rw [if_pos ht] at hd
            cases hd
            exact runStageAgent_listValued parse pfuel cfg.title (adapter cfg.moduleServers)
              invoke decisions k v hk
          · rw [if_neg ht] at hd
            exact hinv _ _ hd k v hk

/-- C5 witness: recording two results for the same label yields the
appended two-element list. -/
theorem stage_results_always_lists_witness :
    aget (recordResult [("S:t", JValue.list [JValue.num 1])] "S:t" (JValue.num 2)) "S:t" =
      some (JValue.list [JValue.num 1, JValue.num 2]) :=
  (stage_results_always_lists parseNone 0 "T" "q" [] (fun _ _ _ => ToolOutcome.err "e")
      (fun _ _ _ => ToolOutcome.err "e") (fun _ => AgentDecision.finish "") fzZero
      ⟨"k", "T", "d", [], []⟩ (fun _ => []) ⟨[], []⟩).2.2.1
    [("S:t", JValue.list [JValue.num 1])] "S:t" (JValue.num 2) [JValue.num 1] (by rfl)

/-! ## C3 -/

/-- A demo resolved tool for the counterexample run. -/
def rtEx : ResolvedMCPTool := ⟨"SrvA", ⟨"search", "demo search tool", ["query"]⟩⟩

/-- The arguments the model is modelled to request on every step. -/
def argsEx : JValue := JValue.dict [("query", JValue.str "q")]

/-- An invocation oracle whose tool always answers with an empty dict. -/
def invEmptyEx : Nat → String → JValue → ToolOutcome :=
  fun _ _ _ => ToolOutcome.ok (JValue.dict [])

/-- A decision oracle that requests the same tool call on every step. -/
def decCallEx : Nat → AgentDecision := fun _ => AgentDecision.callTool "search" argsEx

/-- C3 counterexample: four requested calls whose results are all empty are
all executed — the scratchpad records four empty-result runs, no budget
error is recorded, and `used_tools` stays empty, so the fourth call is not
rejected by the tool cap; the loop simply ends at the step limit. -/
theorem stage_agent_cap_counterexample :
    (stageAgentLoop parseNone 0 (buildToolMap [rtEx]) invEmptyEx decCallEx
        MAX_STAGE_AGENT_STEPS 0 ⟨[], [], [], ""⟩).scratch =
      [ScratchEntry.toolRun rtEx.label argsEx emptyOutputMsg,
       ScratchEntry.toolRun rtEx.label argsEx emptyOutputMsg,
       ScratchEntry.toolRun rtEx.label argsEx emptyOutputMsg,
       ScratchEntry.toolRun rtEx.label argsEx emptyOutputMsg]
    ∧ (stageAgentLoop parseNone 0 (buildToolMap [rtEx]) invEmptyEx decCallEx
        MAX_STAGE_AGENT_STEPS 0 ⟨[], [], [], ""⟩).usedTools = [] := by
  have hstep : ∀ (fuel idx : Nat) (sc : List ScratchEntry) (res : List (String × JValue))
      (sm : String),
      stageAgentLoop parseNone 0 (buildToolMap [rtEx]) invEmptyEx decCallEx
          (Nat.succ fuel) idx ⟨sc, res, [], sm⟩ =
        stageAgentLoop parseNone 0 (buildToolMap [rtEx]) invEmptyEx decCallEx
          fuel (idx + 1)
          ⟨sc ++ [ScratchEntry.toolRun rtEx.label argsEx emptyOutputMsg], res, [], sm⟩ := by
    intro fuel idx sc res sm
    rw [stageAgentLoop]
    simp [decCallEx, invEmptyEx, buildToolMap, aset, aget, serializeToolOutput,
      isMeaningfulResult_dict, MAX_STAGE_AGENT_TOOLS, rtEx]
  rw [show MAX_STAGE_AGENT_STEPS = Nat.succ (Nat.succ (Nat.succ (Nat.succ 0))) from rfl]
  rw [hstep, hstep, hstep, hstep, stageAgentLoop]
  simp

/-- C3 (amended): the cap bounds the number of recorded tool invocations —
those whose result was kept or errored, repeats included, empty results
excluded: a call requested when `used_tools` already has
`MAX_STAGE_AGENT_TOOLS` entries only records the budget note and stops the
loop, the loop never lets `used_tools` grow beyond the cap, and a full
stage-agent run records at most `MAX_STAGE_AGENT_TOOLS` invocations. -/
theorem stage_agent_tool_cap (parse : String → Option JValue) (pfuel : Nat)
    (toolMap : List (String × ResolvedMCPTool)) (invoke : Nat → String → JValue → ToolOutcome)
    (decisions : Nat → AgentDecision) :
    (∀ fuel idx st nm args, decisions idx = AgentDecision.callTool nm args →
        MAX_STAGE_AGENT_TOOLS ≤ st.usedTools.length →
        stageAgentLoop parse pfuel toolMap invoke decisions (Nat.succ fuel) idx st =
          { st with
              scratch := st.scratch ++ [ScratchEntry.err budgetMsg]
              summary := if st.summary = "" then budgetSummaryMsg else st.summary })
    ∧ (∀ fuel idx st,
        (stageAgentLoop parse pfuel toolMap invoke decisions fuel idx st).usedTools.length ≤
          max st.usedTools.length MAX_STAGE_AGENT_TOOLS)
    ∧ (∀ stageTitle tools,
        (runStageAgent parse pfuel stageTitle tools invoke decisions).usedTools.length ≤
          MAX_STAGE_AGENT_TOOLS) := by
  have hcap1 : ∀ fuel idx st nm args, decisions idx = AgentDecision.callTool nm args →
      MAX_STAGE_AGENT_TOOLS ≤ st.usedTools.length →
      stageAgentLoop parse pfuel toolMap invoke decisions (Nat.succ fuel) idx st =
        { st with
            scratch := st.scratch ++ [ScratchEntry.err budgetMsg]
            summary := if st.summary = "" then budgetSummaryMsg else st.summary } := by
    intro fuel idx st nm args hdec hcap
    rw [stageAgentLoop, hdec]
    dsimp only
    rw [if_pos hcap]
  have hbound : ∀ (tm : List (String × ResolvedMCPTool)) (fuel idx : Nat) (st : AgentLoop),
      (stageAgentLoop parse pfuel tm invoke decisions fuel idx st).usedTools.length ≤
        max st.usedTools.length MAX_STAGE_AGENT_TOOLS := by
    intro tm fuel
    induction fuel with
    | zero =>
      intro idx st
      simp [stageAgentLoop]
    | succ fuel ih =>
      intro idx st
      rw [stageAgentLoop]
      cases hdec : decisions idx with
      | finish s => simp
      | callTool nm args =>
        dsimp only
        by_cases hcap : MAX_STAGE_AGENT_TOOLS ≤ st.usedTools.length
        · rw [if_pos hcap]
          simp
        · rw [if_neg hcap]
          cases hfind : aget tm nm with
          | none =>
            have h := ih (idx + 1)
              { st with scratch := st.scratch ++ [ScratchEntry.err (toolNotFoundMsg nm)] }
            simpa using h
          | some rt =>
            dsimp only
            cases hinv : invoke idx nm args with
            | err msg =>
              dsimp only
              have h := ih (idx + 1)
                (recordStep st rt.label args (JValue.dict [("error", JValue.str msg)]))
              have hlen : (recordStep st rt.label args
                  (JValue.dict [("error", JValue.str msg)])).usedTools.length =
                  st.usedTools.length + 1 := by simp [recordStep]
              rw [hlen] at h
              omega
            | ok v =>
              dsimp only
              by_cases hme : isMeaningfulResult parse pfuel (serializeToolOutput v)
              · rw [if_pos hme]
                have h := ih (idx + 1) (recordStep st rt.label args (serializeToolOutput v))
                have hlen : (recordStep st rt.label args
                    (serializeToolOutput v)).usedTools.length =
                    st.usedTools.length + 1 := by simp [recordStep]
                rw [hlen] at h
                omega
              · rw [if_neg hme]
                have h := ih (idx + 1)
                  { st with scratch :=
                      st.scratch ++ [ScratchEntry.toolRun rt.label args emptyOutputMsg] }
                simpa using h
  refine ⟨hcap1, hbound toolMap, ?_⟩
  intro stageTitle tools
  have h := hbound (buildToolMap tools) MAX_STAGE_AGENT_STEPS 0 ⟨[], [], [], ""⟩
  simpa using h

/-- C3 witness: with three invocations already recorded, a requested fourth
call is rejected with the budget note and the cap summary. -/
theorem stage_agent_tool_cap_witness :
    stageAgentLoop parseNone 0 [] (fun _ _ _ => ToolOutcome.err "e")
        (fun _ => AgentDecision.callTool "t" JValue.null) (Nat.succ 0) 0
        ⟨[], [], ["a", "b", "c"], ""⟩ =
      { scratch := [ScratchEntry.err budgetMsg]
        results := []
        usedTools := ["a", "b", "c"]
        summary := budgetSummaryMsg } := by
  have h := (stage_agent_tool_cap parseNone 0 [] (fun _ _ _ => ToolOutcome.err "e")
      (fun _ => AgentDecision.callTool "t" JValue.null)).1 0 0
      ⟨[], [], ["a", "b", "c"], ""⟩ "t" JValue.null rfl (by decide)
  simpa using h

/-! ## C10 -/

/-- An invocation oracle whose tool always raises. -/
def invErrEx : Nat → String → JValue → ToolOutcome := fun _ _ _ => ToolOutcome.err "boom"

/-- A decision oracle that requests one call and then finishes. -/
def decOnceEx : Nat → AgentDecision :=
  fun i => if i = 0 then AgentDecision.callTool "search" argsEx else AgentDecision.finish "done"

/-- C10: a raised tool invocation is caught: the error dict is appended to
the results under the tool label and the label is appended to `used_tools`,
without consulting the meaningfulness filter; consequently a stage whose
every call raised still reports status `completed`, although the error dict
itself can be non-meaningful. -/
theorem tool_error_recorded_as_result (parse : String → Option JValue) (pfuel : Nat)
    (toolMap : List (String × ResolvedMCPTool)) (invoke : Nat → String → JValue → ToolOutcome)
    (decisions : Nat → AgentDecision) (fuel idx : Nat) (st : AgentLoop) (nm : String)
    (args : JValue) (rt : ResolvedMCPTool) (msg : String)
    (hdec : decisions idx = AgentDecision.callTool nm args)
    (hcap : st.usedTools.length < MAX_STAGE_AGENT_TOOLS)
    (hfind : aget toolMap nm = some rt)
    (hinv : invoke idx nm args = ToolOutcome.err msg) :
    stageAgentLoop parse pfuel toolMap invoke decisions (Nat.succ fuel) idx st =
      stageAgentLoop parse pfuel toolMap invoke decisions fuel (idx + 1)
        (recordStep st rt.label args (JValue.dict [("error", JValue.str msg)]))
    ∧ (recordStep st rt.label args (JValue.dict [("error", JValue.str msg)])).usedTools =
        st.usedTools ++ [rt.label]
    ∧ (∃ xs, aget (recordStep st rt.label args
          (JValue.dict [("error", JValue.str msg)])).results rt.label =
        some (JValue.list (xs ++ [JValue.dict [("error", JValue.str msg)]])))
    ∧ (runStageAgent parseNone 0 "T" [rtEx] invErrEx decOnceEx).status = "completed"
    ∧ isMeaningfulResult parseNone 0 (JValue.dict [("error", JValue.str "")]) = false := by
  refine ⟨?_, by simp [recordStep], ?_, ?_, ?_⟩
  · rw [stageAgentLoop, hdec]
    dsimp only
    rw [if_neg (Nat.not_le.mpr hcap), hfind]
    dsimp only
    rw [hinv]
  · simp only [recordStep]
    unfold recordResult
    cases hl : aget st.results rt.label with
    | none =>
      refine ⟨[], ?_⟩
      rw [aget_aset]
      simp
    | some v =>
      cases v with
      | null => exact ⟨[], by rw [aget_aset]; simp⟩
      | list xs => exact ⟨xs, by rw [aget_aset]; simp⟩
      | bool b => exact ⟨[JValue.bool b], by rw [aget_aset]; simp⟩
      | num n => exact ⟨[JValue.num n], by rw [aget_aset]; simp⟩
      | str s => exact ⟨[JValue.str s], by rw [aget_aset]; simp⟩
      | dict kvs => exact ⟨[JValue.dict kvs], by rw [aget_aset]; simp⟩
  · rfl
  · simp [isMeaningfulResult_dict, hitsFieldEmpty, nestedSearchHitsEmpty, resultsFieldEmpty,
      aget, isTrivialValue]

/-- C10 witness: the error dict of a raised first call is recorded under the
tool label and the label enters `used_tools`. -/
theorem tool_error_recorded_as_result_witness :
    (recordStep ⟨[], [], [], ""⟩ rtEx.label argsEx
        (JValue.dict [("error", JValue.str "boom")])).usedTools = [] ++ [rtEx.label] :=
  (tool_error_recorded_as_result parseNone 0 (buildToolMap [rtEx]) invErrEx decOnceEx
      0 0 ⟨[], [], [], ""⟩ "search" argsEx rtEx "boom" rfl (by decide) rfl rfl).2.1

/-! ## C8 -/

/-- A stage configuration whose provider servers are all unavailable. -/
def cfgNoServersEx : StageCfg :=
  ⟨"target_agent", "TargetAgent", "Select core gene targets associated with the disease.",
   [], ["OpenTargets-MCP-Server", "GeneOntology-MCP-Server"]⟩

/-- C8 counterexample: on a fresh run state, the stage node of a stage with
no available servers does not leave `mcp_tool_results` unchanged — it
installs an empty entry under the stage title before returning. -/
theorem stage_skip_counterexample :
    (workflowStageNode parseNone 0 fzZero cfgNoServersEx (fun _ => []) invErrEx decCallEx
        invErrEx "q" ⟨[], []⟩).mcpToolResults ≠
      ([] : List (String × List (String × JValue))) := by
  simp [workflowStageNode, cfgNoServersEx, aset]

/-- C8 (amended): when a stage has no available servers or the adapter
converts no tools, the stage node appends one trace entry with status
`skipped`, records only an empty results dict under the stage title —
leaving every other entry of `mcp_tool_results` untouched — raises nothing
(the embedded node is a total function), and the graph continues from
`mcp_execution` to the history check. -/
theorem stage_skip_frame (parse : String → Option JValue) (pfuel : Nat)
    (fz : String → String → ℚ) (cfg : StageCfg)
    (adapter : List String → List ResolvedMCPTool)
    (invoke fbInvoke : Nat → String → JValue → ToolOutcome)
    (decisions : Nat → AgentDecision) (query : String) (st : StageState)
    (h : cfg.moduleServers = [] ∨ (adapter cfg.moduleServers).isEmpty = true) :
    (∃ e : TraceEntry,
        (workflowStageNode parse pfuel fz cfg adapter invoke decisions fbInvoke query
            st).workflowTrace = st.workflowTrace ++ [e]
        ∧ e.status = "skipped" ∧ e.stage = cfg.title)
    ∧ aget (workflowStageNode parse pfuel fz cfg adapter invoke decisions fbInvoke query
          st).mcpToolResults cfg.title = some []
    ∧ (∀ t, t ≠ cfg.title →
        aget (workflowStageNode parse pfuel fz cfg adapter invoke decisions fbInvoke query
            st).mcpToolResults t = aget st.mcpToolResults t)
    ∧ (∀ (o : GOracle) (tm : Nat) (c : GConfig), c.node = GNode.mcpExecution →
        (gstep o tm c).node = GNode.historyCheck) := by
  have key : ∃ notes0 : String,
      workflowStageNode parse pfuel fz cfg adapter invoke decisions fbInvoke query st =
        { mcpToolResults := aset st.mcpToolResults cfg.title []
          workflowTrace := st.workflowTrace ++
            [⟨cfg.title, cfg.description, [], "skipped", notes0⟩] } := by
    by_cases h1 : cfg.moduleServers = []
    · refine ⟨"Skipping stage because no registered MCP server tools are available.", ?_⟩
      unfold workflowStageNode
      rw [if_pos h1]
    · rcases h with h1' | h2
      · exact absurd h1' h1
      · refine ⟨(if cfg.missingServers = [] then ""
            else "Missing MCP servers: " ++ String.intercalate ", " cfg.missingServers) ++
            (if (if cfg.missingServers = [] then ""
              else "Missing MCP servers: " ++ String.intercalate ", " cfg.missingServers) = ""
             then "" else "; ") ++
            "No LangChain tools were found on the selected MCP servers.", ?_⟩
        unfold workflowStageNode
        rw [if_neg h1, if_pos h2]
  obtain ⟨notes0, hnode⟩ := key
  refine ⟨⟨⟨cfg.title, cfg.description, [], "skipped", notes0⟩, by rw [hnode], rfl, rfl⟩,
    ?_, ?_, ?_⟩
  · rw [hnode]
    dsimp only
    rw [aget_aset]
    simp
  · intro t ht
    rw [hnode]
    dsimp only
    rw [aget_aset, if_neg ht]
  · intro o tm c hc
    simp [gstep, hc]

/-- C8 witness: the amended statement at the concrete no-server stage. -/
theorem stage_skip_frame_witness :
    aget (workflowStageNode parseNone 0 fzZero cfgNoServersEx (fun _ => []) invErrEx
        decCallEx invErrEx "q" ⟨[], []⟩).mcpToolResults cfgNoServersEx.title = some [] :=
  (stage_skip_frame parseNone 0 fzZero cfgNoServersEx (fun _ => []) invErrEx invErrEx
    decCallEx "q" ⟨[], []⟩ (Or.inl rfl)).2.1

/-! ## C1 -/

theorem gstep_done (o : GOracle) (t : Nat) (c : GConfig) (h : c.node = GNode.done) :
    gstep o t c = c := by
  obtain ⟨n, sc, vs, nx, im, ns⟩ := c
  cases h
  rfl

theorem gmeasure_eq_zero (c : GConfig) (h : gmeasure c = 0) : c.node = GNode.done := by
  obtain ⟨n, sc, vs, nx, im, ns⟩ := c
  cases n <;> simp [gmeasure] at h ⊢

theorem classifyMcpChoice_budget (visits : List (String × Nat)) (sc : Nat)
    (llm : Option String) (h : MAX_WORKFLOW_ITERATIONS ≤ sc) :
    classifyMcpChoice visits sc llm = "AG" := by
  unfold classifyMcpChoice
  rw [if_pos (Or.inl h)]

theorem gstep_measure_lt (o : GOracle) (t : Nat) (c : GConfig) (h : c.node ≠ GNode.done) :
    gmeasure (gstep o t c) < gmeasure c := by
  obtain ⟨n, sc, vs, nx, im, ns⟩ := c
  cases n with
  | done => exact absurd rfl h
  | router => simp [gstep, gmeasure]
  | classify =>
    by_cases hm : classifyIsMcp o.fz o.classifyLLM o.question = true
    · simp [gstep, gmeasure, hm]
    · simp [gstep, gmeasure, hm]
      omega
  | classifyMcp =>
    by_cases hag : pyUpper (classifyMcpChoice vs sc (o.llmNext t)) = "AG"
    · simp [gstep, gmeasure, hag]
      omega
    · simp [gstep, gmeasure, hag]
  | mcpExecution => simp [gstep, gmeasure]
  | historyCheck =>
    by_cases hs : o.needsSum t = true
    · simp [gstep, gmeasure, hs]
    · simp [gstep, gmeasure, hs]
  | summary => simp [gstep, gmeasure]
  | incrementStep =>
    by_cases hb : MAX_WORKFLOW_ITERATIONS ≤ sc + 1
    · have hst : gstep o t ⟨GNode.incrementStep, sc, vs, nx, im, ns⟩ =
          ⟨GNode.searchQuery, sc + 1, vs, nx, im, ns⟩ := by simp [gstep, hb]
      rw [hst]
      simp only [gmeasure, remBudget, MAX_WORKFLOW_ITERATIONS]
      omega
    · have hst : gstep o t ⟨GNode.incrementStep, sc, vs, nx, im, ns⟩ =
          ⟨GNode.classifyMcp, sc + 1, vs, nx, im, ns⟩ := by simp [gstep, hb]
      rw [hst]
      simp only [MAX_WORKFLOW_ITERATIONS] at hb
      simp only [gmeasure, remBudget, MAX_WORKFLOW_ITERATIONS]
      omega
  | searchQuery => simp [gstep, gmeasure]
  | vectorSearch => simp [gstep, gmeasure]
  | finalAnswer => simp [gstep, gmeasure]
  | directAnswer => simp [gstep, gmeasure]

theorem grun_stays_done (o : GOracle) :
    ∀ (fuel t : Nat) (c : GConfig), c.node = GNode.done →
      (grun o t fuel c).node = GNode.done := by
  intro fuel
  induction fuel with
  | zero =>
    intro t c h
    rw [grun]
    exact h
  | succ fuel ih =>
    intro t c h
    rw [grun, gstep_done o t c h]
    exact ih _ c h

theorem grun_reaches_done (o : GOracle) :
    ∀ (fuel t : Nat) (c : GConfig), gmeasure c ≤ fuel → (grun o t fuel c).node = GNode.done := by
  intro fuel
  induction fuel with
  | zero =>
    intro t c hm
    rw [grun]
    exact gmeasure_eq_zero c (Nat.le_zero.mp hm)
  | succ fuel ih =>
    intro t c hm
    by_cases hd : c.node = GNode.done
    · exact grun_stays_done o (fuel + 1) t c hd
    · rw [grun]
      exact ih (t + 1) (gstep o t c) (by
        have := gstep_measure_lt o t c hd
        omega)

/-- The routing invariant of a run: the step counter never exceeds the
budget, and the loop-body nodes only execute strictly under it. -/
def GInv (c : GConfig) : Prop :=
  c.stepCount ≤ MAX_WORKFLOW_ITERATIONS ∧
  ((c.node = GNode.mcpExecution ∨ c.node = GNode.historyCheck ∨ c.node = GNode.summary ∨
      c.node = GNode.incrementStep) → c.stepCount < MAX_WORKFLOW_ITERATIONS)

theorem gstep_preserves_inv (o : GOracle) (t : Nat) (c : GConfig) (h : GInv c) :
    GInv (gstep o t c) := by
  obtain ⟨hle, hloop⟩ := h
  obtain ⟨n, sc, vs, nx, im, ns⟩ := c
  simp only at hle hloop
  cases n with
  | done => exact ⟨hle, fun hcon => hloop hcon⟩
  | router =>
    refine ⟨hle, fun hcon => ?_⟩
    simp [gstep] at hcon
  | classify =>
    by_cases hm : classifyIsMcp o.fz o.classifyLLM o.question = true
    · have hst : gstep o t ⟨GNode.classify, sc, vs, nx, im, ns⟩ =
          ⟨GNode.classifyMcp, sc, vs, nx, classifyIsMcp o.fz o.classifyLLM o.question, ns⟩ := by
        simp [gstep, hm]
      refine ⟨by rw [hst]; exact hle, fun hcon => ?_⟩
      rw [hst] at hcon
      simp at hcon
    · have hst : gstep o t ⟨GNode.classify, sc, vs, nx, im, ns⟩ =
          ⟨GNode.directAnswer, sc, vs, nx, classifyIsMcp o.fz o.classifyLLM o.question, ns⟩ := by
        simp [gstep, hm]
      refine ⟨by rw [hst]; exact hle, fun hcon => ?_⟩
      rw [hst] at hcon
      simp at hcon
  | classifyMcp =>
    by_cases hag : pyUpper (classifyMcpChoice vs sc (o.llmNext t)) = "AG"
    · have hst : (gstep o t ⟨GNode.classifyMcp, sc, vs, nx, im, ns⟩).node =
          GNode.searchQuery := by simp [gstep, hag]
      refine ⟨by simpa [gstep] using hle, fun hcon => ?_⟩
      rw [hst] at hcon
      simp at hcon
    · have hbud : ¬ MAX_WORKFLOW_ITERATIONS ≤ sc := by
        intro hb
        exact hag (by rw [classifyMcpChoice_budget vs sc (o.llmNext t) hb]; rfl)
      have hst : (gstep o t ⟨GNode.classifyMcp, sc, vs, nx, im, ns⟩).node =
          GNode.mcpExecution := by simp [gstep, hag]
      refine ⟨by simpa [gstep] using hle, fun _ => ?_⟩
      simp only [gstep]
      omega
  | mcpExecution =>
    have hsc : sc < MAX_WORKFLOW_ITERATIONS := hloop (Or.inl rfl)
    exact ⟨by simpa [gstep] using hle, fun _ => by simpa [gstep] using hsc⟩
  | historyCheck =>
    have hsc : sc < MAX_WORKFLOW_ITERATIONS := hloop (Or.inr (Or.inl rfl))
    exact ⟨by simpa [gstep] using hle, fun _ => by simpa [gstep] using hsc⟩
  | summary =>
    have hsc : sc < MAX_WORKFLOW_ITERATIONS := hloop (Or.inr (Or.inr (Or.inl rfl)))
    exact ⟨by simpa [gstep] using hle, fun _ => by simpa [gstep] using hsc⟩
  | incrementStep =>
    have hsc : sc < MAX_WORKFLOW_ITERATIONS := hloop (Or.inr (Or.inr (Or.inr rfl)))
    by_cases hb : MAX_WORKFLOW_ITERATIONS ≤ sc + 1
    · have hst : gstep o t ⟨GNode.incrementStep, sc, vs, nx, im, ns⟩ =
          ⟨GNode.searchQuery, sc + 1, vs, nx, im, ns⟩ := by simp [gstep, hb]
      rw [hst]
      refine ⟨?_, fun hcon => by simp at hcon⟩
      show sc + 1 ≤ MAX_WORKFLOW_ITERATIONS
      omega
    · have hst : gstep o t ⟨GNode.incrementStep, sc, vs, nx, im, ns⟩ =
          ⟨GNode.classifyMcp, sc + 1, vs, nx, im, ns⟩ := by simp [gstep, hb]
      rw [hst]
      refine ⟨?_, fun hcon => by simp at hcon⟩
      show sc + 1 ≤ MAX_WORKFLOW_ITERATIONS
      omega
  | searchQuery =>
    exact ⟨by simpa [gstep] using hle, fun hcon => by simp [gstep] at hcon⟩
  | vectorSearch =>
    exact ⟨by simpa [gstep] using hle, fun hcon => by simp [gstep] at hcon⟩
  | finalAnswer =>
    exact ⟨by simpa [gstep] using hle, fun hcon => by simp [gstep] at hcon⟩
  | directAnswer =>
    exact ⟨by simpa [gstep] using hle, fun hcon => by simp [gstep] at hcon⟩

theorem grun_preserves_inv (o : GOracle) :
    ∀ (fuel t : Nat) (c : GConfig), GInv c → GInv (grun o t fuel c) := by
  intro fuel
  induction fuel with
  | zero =>
    intro t c h
    rw [grun]
    exact h
  | succ fuel ih =>
    intro t c h
    rw [grun]
    exact ih (t + 1) (gstep o t c) (gstep_preserves_inv o t c h)

theorem gstep_stepCount (o : GOracle) (t : Nat) (c : GConfig) :
    ((gstep o t c).stepCount = c.stepCount ∧ c.node ≠ GNode.incrementStep)
    ∨ ((gstep o t c).stepCount = c.stepCount + 1 ∧ c.node = GNode.incrementStep) := by
  obtain ⟨n, sc, vs, nx, im, ns⟩ := c
  cases n <;> simp [gstep]

theorem pyUpper_AG : pyUpper "AG" = "AG" := by decide

/-- C1: in every run of the graph, the step counter starts at 0, each step
either leaves it unchanged (every node but `increment_step`) or increases
it by exactly 1 (`increment_step`), it never exceeds
`MAX_WORKFLOW_ITERATIONS` at any point of the run — so the
`classify_mcp` / `mcp_execution` / `increment_step` loop makes at most
`MAX_WORKFLOW_ITERATIONS` passes — once the budget is reached both the
`increment_step` branch and the `classify_mcp` node route to the terminal
`search_query` path, and the run reaches the terminal node within a fixed
fuel. -/
theorem workflow_budget_termination (o : GOracle) :
    initConfig.stepCount = 0
    ∧ (grun o 0 59 initConfig).node = GNode.done
    ∧ (∀ n, (grun o 0 n initConfig).stepCount ≤ MAX_WORKFLOW_ITERATIONS)
    ∧ (∀ t c, ((gstep o t c).stepCount = c.stepCount ∧ c.node ≠ GNode.incrementStep)
        ∨ ((gstep o t c).stepCount = c.stepCount + 1 ∧ c.node = GNode.incrementStep))
    ∧ (∀ t c, MAX_WORKFLOW_ITERATIONS ≤ c.stepCount →
        (c.node = GNode.incrementStep → (gstep o t c).node = GNode.searchQuery)
        ∧ (c.node = GNode.classifyMcp →
            (gstep o t c).node = GNode.searchQuery ∧ (gstep o t c).next = "AG")) := by
  refine ⟨rfl, ?_, ?_, gstep_stepCount o, ?_⟩
  · exact grun_reaches_done o 59 0 initConfig (by decide)
  · intro n
    exact (grun_preserves_inv o n 0 initConfig
      ⟨by decide, fun hcon => by simp [initConfig] at hcon⟩).1
  · intro t c hb
    constructor
    · intro hc
      obtain ⟨n, sc, vs, nx, im, ns⟩ := c
      cases hc
      simp only at hb
      have hb1 : MAX_WORKFLOW_ITERATIONS ≤ sc + 1 := le_trans hb (Nat.le_succ sc)
      simp [gstep, hb1]
    · intro hc
      obtain ⟨n, sc, vs, nx, im, ns⟩ := c
      cases hc
      simp only at hb
      have hch := classifyMcpChoice_budget vs sc (o.llmNext t) hb
      exact ⟨by simp [gstep, hch, pyUpper_AG], by simp [gstep, hch]⟩

/-- A concrete oracle for the C1 witness. -/
def oEx : GOracle := ⟨"q", fzZero, "일반", fun _ => none, fun _ => false⟩

/-- C1 witness: the run with a concrete oracle terminates within the fixed
fuel and respects the budget. -/
theorem workflow_budget_termination_witness :
    (grun oEx 0 59 initConfig).node = GNode.done
    ∧ (grun oEx 0 59 initConfig).stepCount ≤ MAX_WORKFLOW_ITERATIONS :=
  ⟨(workflow_budget_termination oEx).2.1, (workflow_budget_termination oEx).2.2.1 59⟩
